import Mathlib

/-!
Verification of the Connect-4 game-state engine and adversarial search
(4inaROW.py).  The board is a list of rows of characters, exactly as the
Python source represents it (a list of lists holding '.', 'X' and 'O').
Out-of-range reads return the placeholder '?', which never equals a game
character; every theorem that needs in-range access carries the
rectangularity hypotheses that the Python program guarantees at runtime.
-/

/-- A board state: list of rows, each row a list of cells. -/
abbrev BoardState := List (List Char)

/-- Read cell (r, c); out of range gives the placeholder. -/
def cellAt (state : BoardState) (r c : Nat) : Char :=
  (state.getD r []).getD c '?'

/-- Number of columns, as the source computes it: len(state[0]). -/
def colsOf (state : BoardState) : Nat := (state.getD 0 []).length

/-- Every row has the length of row 0 (the grid the program builds). -/
def Rect (state : BoardState) : Prop :=
  ∀ row ∈ state, row.length = colsOf state

/-- Every cell is one of the three game characters. -/
def ValidCells (state : BoardState) : Prop :=
  ∀ row ∈ state, ∀ c ∈ row, c = '.' ∨ c = 'X' ∨ c = 'O'

/-- MINIMAX_ALGORITHM.get_possible_moves: columns whose top cell is '.'. -/
def get_possible_moves (state : BoardState) : List Nat :=
  (List.range (colsOf state)).filter (fun col => cellAt state 0 col = '.')

/-- The loop `for r in range(len(state)-1, -1, -1): if state[r][col]=='.'`:
checks rows n-1, n-2, ..., 0 and returns the first empty one found. -/
def find_drop_row (state : BoardState) (col : Nat) : Nat → Option Nat
  | 0 => none
  | n + 1 => if cellAt state n col = '.' then some n else find_drop_row state col n

/-- Write `v` into cell (r, c) (row copy + element assignment). -/
def setCell (state : BoardState) (r c : Nat) (v : Char) : BoardState :=
  state.set r ((state.getD r []).set c v)

/-- MINIMAX_ALGORITHM.make_move: copy the grid, then scan the column bottom-up
and place the player mark in the first empty cell found; if the column has no
empty cell the copy is returned unchanged (the loop simply finds nothing). -/
def make_move (state : BoardState) (move : Nat) (player : Char) : BoardState :=
  match find_drop_row state move state.length with
  | none => state
  | some r => setCell state r move player

/-- MINIMAX_ALGORITHM.evaluate_window with its exact branch order. -/
def evaluate_window (window : List Char) : Int :=
  if window.count 'O' = 4 then 100
  else if window.count 'X' = 4 then -100
  else if window.count 'O' = 3 ∧ window.count '.' = 1 then 5
  else if window.count 'O' = 2 ∧ window.count '.' = 2 then 2
  else if window.count 'X' = 3 ∧ window.count '.' = 1 then -5
  else if window.count 'X' = 2 ∧ window.count '.' = 2 then -2
  else 0

/-- Row windows: for each row, the slices row[col:col+4], col < len(row)-3. -/
def rowWindows (state : BoardState) : List (List Char) :=
  state.flatMap (fun row =>
    (List.range (row.length - 3)).map (fun col => (row.drop col).take 4))

/-- Column windows, in evaluate's iteration order (col outer, row inner). -/
def colWindows (state : BoardState) : List (List Char) :=
  (List.range (colsOf state)).flatMap (fun col =>
    (List.range (state.length - 3)).map (fun row =>
      (List.range 4).map (fun i => cellAt state (row + i) col)))

/-- Down-right diagonal windows. -/
def diag1Windows (state : BoardState) : List (List Char) :=
  (List.range (state.length - 3)).flatMap (fun row =>
    (List.range (colsOf state - 3)).map (fun col =>
      (List.range 4).map (fun i => cellAt state (row + i) (col + i))))

/-- Down-left diagonal windows (col runs over range(3, cols)). -/
def diag2Windows (state : BoardState) : List (List Char) :=
  (List.range (state.length - 3)).flatMap (fun row =>
    (List.range' 3 (colsOf state - 3)).map (fun col =>
      (List.range 4).map (fun i => cellAt state (row + i) (col - i))))

/-- MINIMAX_ALGORITHM.evaluate: the four window scans, summed. -/
def evaluate (state : BoardState) : Int :=
  ((rowWindows state).map evaluate_window).sum
  + ((colWindows state).map evaluate_window).sum
  + ((diag1Windows state).map evaluate_window).sum
  + ((diag2Windows state).map evaluate_window).sum

/-- MINIMAX_ALGORITHM.is_winner: the four scans with early return. -/
def is_winner (state : BoardState) (player : Char) : Bool :=
  (state.any (fun row =>
    (List.range (row.length - 3)).any (fun col =>
      ((row.drop col).take 4).all (fun cell => cell = player))))
  || ((List.range (colsOf state)).any (fun col =>
        (List.range (state.length - 3)).any (fun row =>
          (List.range 4).all (fun i => cellAt state (row + i) col = player))))
  || ((List.range (state.length - 3)).any (fun row =>
        (List.range (colsOf state - 3)).any (fun col =>
          (List.range 4).all (fun i => cellAt state (row + i) (col + i) = player))))
  || ((List.range (state.length - 3)).any (fun row =>
        (List.range' 3 (colsOf state - 3)).any (fun col =>
          (List.range 4).all (fun i => cellAt state (row + i) (col - i) = player))))

/-- MINIMAX_ALGORITHM.is_terminal. -/
def is_terminal (state : BoardState) : Bool :=
  is_winner state 'O' || is_winner state 'X'
  || state.all (fun row => row.all (fun cell => cell ≠ '.'))

/-- Values built from Python floats: -inf, finite ints, +inf. -/
inductive XInt where
  | negInf : XInt
  | fin : Int → XInt
  | posInf : XInt
deriving DecidableEq

/-- max on XInt (Python max over ints and the two infinities). -/
def XInt.max : XInt → XInt → XInt
  | .negInf, b => b
  | .posInf, _ => .posInf
  | .fin a, .negInf => .fin a
  | .fin _, .posInf => .posInf
  | .fin a, .fin b => .fin (Max.max a b)

/-- min on XInt. -/
def XInt.min : XInt → XInt → XInt
  | .posInf, b => b
  | .negInf, _ => .negInf
  | .fin a, .posInf => .fin a
  | .fin _, .negInf => .negInf
  | .fin a, .fin b => .fin (Min.min a b)

/-- Strict comparison a < b on XInt (Python `score > best_score` flipped). -/
def XInt.blt : XInt → XInt → Bool
  | .negInf, .negInf => false
  | .negInf, _ => true
  | .fin _, .negInf => false
  | .fin a, .fin b => decide (a < b)
  | .fin _, .posInf => true
  | .posInf, _ => false

/-- Non-strict comparison a ≤ b on XInt. -/
def XInt.ble : XInt → XInt → Bool
  | .negInf, _ => true
  | .fin _, .negInf => false
  | .fin a, .fin b => decide (a ≤ b)
  | .fin _, .posInf => true
  | .posInf, .posInf => true
  | .posInf, _ => false

/-- MINIMAX_ALGORITHM.minimax: depth == 0 or terminal returns the static
evaluation; otherwise fold max (resp. min) of the recursive values over the
possible moves, starting from -inf (resp. +inf), exactly as the loops do. -/
def minimax : BoardState → Nat → Bool → XInt
  | state, 0, _ => .fin (evaluate state)
  | state, d + 1, maximizing_player =>
    if is_terminal state then .fin (evaluate state)
    else if maximizing_player then
      (get_possible_moves state).foldl
        (fun acc m => XInt.max acc (minimax (make_move state m 'O') d false)) .negInf
    else
      (get_possible_moves state).foldl
        (fun acc m => XInt.min acc (minimax (make_move state m 'X') d true)) .posInf

/-- The loop of find_best_move: best_score/best_move accumulation, updating
only on a strictly greater score. -/
def fbmLoop (scores : Nat → XInt) : List Nat → XInt → Option Nat → Option Nat
  | [], _, best => best
  | m :: ms, bs, best =>
    if XInt.blt bs (scores m) then fbmLoop scores ms (scores m) (some m)
    else fbmLoop scores ms bs best

/-- MINIMAX_ALGORITHM.find_best_move with the object's configured depth. -/
def find_best_move (depth : Nat) (state : BoardState) : Option Nat :=
  fbmLoop (fun m => minimax (make_move state m 'O') depth false)
    (get_possible_moves state) .negInf none

/-- Index pairs scanned by the row check of is_a_winner (row outer). -/
def rowIdx (rows cols : Nat) : List (Nat × Nat) :=
  (List.range rows).flatMap (fun r =>
    (List.range (cols - 3)).map (fun c => (r, c)))

/-- Index pairs scanned by the column check of is_a_winner (row outer). -/
def colIdx (rows cols : Nat) : List (Nat × Nat) :=
  (List.range (rows - 3)).flatMap (fun r =>
    (List.range cols).map (fun c => (r, c)))

/-- Index pairs scanned by the down-right diagonal check of is_a_winner. -/
def d1Idx (rows cols : Nat) : List (Nat × Nat) :=
  (List.range (rows - 3)).flatMap (fun r =>
    (List.range (cols - 3)).map (fun c => (r, c)))

/-- Index pairs scanned by the up-right diagonal check of is_a_winner
(row runs over range(3, rows)). -/
def d2Idx (rows cols : Nat) : List (Nat × Nat) :=
  (List.range' 3 (rows - 3)).flatMap (fun r =>
    (List.range (cols - 3)).map (fun c => (r, c)))

/-- The horizontal test at one anchor: four chained equalities and a
non-empty anchor, returning the mark and the cells in encounter order. -/
def rowLine (state : BoardState) (p : Nat × Nat) : Option (Char × List (Nat × Nat)) :=
  if cellAt state p.1 p.2 = cellAt state p.1 (p.2 + 1)
      ∧ cellAt state p.1 (p.2 + 1) = cellAt state p.1 (p.2 + 2)
      ∧ cellAt state p.1 (p.2 + 2) = cellAt state p.1 (p.2 + 3)
      ∧ cellAt state p.1 p.2 ≠ '.' then
    some (cellAt state p.1 p.2, [(p.1, p.2), (p.1, p.2 + 1), (p.1, p.2 + 2), (p.1, p.2 + 3)])
  else none

/-- The vertical test at one anchor. -/
def colLine (state : BoardState) (p : Nat × Nat) : Option (Char × List (Nat × Nat)) :=
  if cellAt state p.1 p.2 = cellAt state (p.1 + 1) p.2
      ∧ cellAt state (p.1 + 1) p.2 = cellAt state (p.1 + 2) p.2
      ∧ cellAt state (p.1 + 2) p.2 = cellAt state (p.1 + 3) p.2
      ∧ cellAt state p.1 p.2 ≠ '.' then
    some (cellAt state p.1 p.2, [(p.1, p.2), (p.1 + 1, p.2), (p.1 + 2, p.2), (p.1 + 3, p.2)])
  else none

/-- The down-right diagonal test at one anchor. -/
def d1Line (state : BoardState) (p : Nat × Nat) : Option (Char × List (Nat × Nat)) :=
  if cellAt state p.1 p.2 = cellAt state (p.1 + 1) (p.2 + 1)
      ∧ cellAt state (p.1 + 1) (p.2 + 1) = cellAt state (p.1 + 2) (p.2 + 2)
      ∧ cellAt state (p.1 + 2) (p.2 + 2) = cellAt state (p.1 + 3) (p.2 + 3)
      ∧ cellAt state p.1 p.2 ≠ '.' then
    some (cellAt state p.1 p.2,
      [(p.1, p.2), (p.1 + 1, p.2 + 1), (p.1 + 2, p.2 + 2), (p.1 + 3, p.2 + 3)])
  else none

/-- The up-right diagonal test at one anchor (rows decrease, columns grow). -/
def d2Line (state : BoardState) (p : Nat × Nat) : Option (Char × List (Nat × Nat)) :=
  if cellAt state p.1 p.2 = cellAt state (p.1 - 1) (p.2 + 1)
      ∧ cellAt state (p.1 - 1) (p.2 + 1) = cellAt state (p.1 - 2) (p.2 + 2)
      ∧ cellAt state (p.1 - 2) (p.2 + 2) = cellAt state (p.1 - 3) (p.2 + 3)
      ∧ cellAt state p.1 p.2 ≠ '.' then
    some (cellAt state p.1 p.2,
      [(p.1, p.2), (p.1 - 1, p.2 + 1), (p.1 - 2, p.2 + 2), (p.1 - 3, p.2 + 3)])
  else none

/-- GAME_AI.is_a_winner and GAME_1V1.is_a_winner (the two methods are
textually identical): the four scans in order, each nested loop returning its
first hit, realized as findSome? over the flattened index list; the whole
method returns the first scan's hit if any, else the next scan's, etc.
The Python return value [mark, c1, c2, c3, c4] is modelled as (mark, cells). -/
def is_a_winner (state : BoardState) : Option (Char × List (Nat × Nat)) :=
  ((rowIdx state.length (colsOf state)).findSome? (rowLine state)).or
    (((colIdx state.length (colsOf state)).findSome? (colLine state)).or
      (((d1Idx state.length (colsOf state)).findSome? (d1Line state)).or
        ((d2Idx state.length (colsOf state)).findSome? (d2Line state))))

/-- All winning lines, in the exact scan order of is_a_winner. -/
def allWinningLines (state : BoardState) : List (Char × List (Nat × Nat)) :=
  (rowIdx state.length (colsOf state)).filterMap (rowLine state)
  ++ (colIdx state.length (colsOf state)).filterMap (colLine state)
  ++ (d1Idx state.length (colsOf state)).filterMap (d1Line state)
  ++ (d2Idx state.length (colsOf state)).filterMap (d2Line state)

/-- GAME_AI.get_available_position (same in GAME_1V1): line starts at 0 and
is overwritten by every empty row found while scanning top to bottom, so it
ends at the lowest empty row, or 0 when the column has no empty cell. -/
def get_available_position (state : BoardState) (column : Nat) : Nat :=
  (List.range state.length).foldl
    (fun line i => if cellAt state i column = '.' then i else line) 0

/-- GAME_AI.execute_ai_move: drop an 'O' at the available position. -/
def execute_ai_move (state : BoardState) (ai_move : Nat) : BoardState :=
  setCell state (get_available_position state ai_move) ai_move 'O'

/-- GAME_AI.execute_move: the human drops an 'X' in the chosen column. -/
def execute_move (state : BoardState) (column : Nat) : BoardState :=
  setCell state (get_available_position state column) column 'X'

/-- The GAME_AI controller fields that govern the Easy-mode branch.
start_move is absent until first assigned in play (modelled as Option). -/
structure GameAI where
  last_move : String
  start_move : Option String
  game_mode : String
  current_player : String
  state : BoardState

/-- GAME_AI.__init__: last_move is set to "Random"; start_move is never
initialized; the board starts empty. -/
def GameAI.init (row_size column_size : Nat) (first_player game_mode : String) : GameAI :=
  { last_move := "Random"
    start_move := none
    game_mode := game_mode
    current_player := first_player
    state := List.replicate row_size (List.replicate column_size '.') }

/-- The two ways the Easy-mode computer branch can move. -/
inductive EasyPath where
  | smart : EasyPath
  | randomPath : EasyPath
deriving DecidableEq

/-- The branch taken by the Easy-mode computer turn: the depth-0
find_best_move path when last_move == "Random", else the random path. -/
def easy_branch_path (g : GameAI) : EasyPath :=
  if g.last_move = "Random" then .smart else .randomPath

/-- The smart branch of the Easy-mode computer turn (lines 775-780 of the
source): play find_best_move at depth 0, hand the turn back to the human and
assign "Smart" to start_move — last_move is left untouched. -/
def easy_smart_turn (g : GameAI) : GameAI :=
  { g with
    state := match find_best_move 0 g.state with
      | some m => execute_ai_move g.state m
      | none => g.state
    current_player := "human"
    start_move := some "Smart" }

/-- The random branch of the Easy-mode computer turn (lines 781-788):
play the sampled column (a parameter here), hand the turn back and assign
"Random" to start_move — last_move is again left untouched. -/
def easy_random_turn (g : GameAI) (sampled : Nat) : GameAI :=
  { g with
    state := execute_ai_move g.state sampled
    current_player := "human"
    start_move := some "Random" }

/-- A human turn in GAME_AI: drop an 'X' and give the turn to the computer. -/
def human_turn (g : GameAI) (column : Nat) : GameAI :=
  { g with state := execute_move g.state column, current_player := "computer" }

/-- validate(...) over the already-parsed integer sizes: the chain of checks,
each raising a descriptive message, and only if none fires is the game
started.  (Messages shown without the source's ASCII quote characters.) -/
def validate (opponent_type : String) (row_size column_size : Int)
    (first_player : String) : Except String Unit :=
  if opponent_type ≠ "human" ∧ opponent_type ≠ "computer" then
    .error "ERROR: Opponent type must be human or computer!"
  else if row_size < 4 ∨ row_size > 8 then
    .error "ERROR: The number of rows must be between 4 and 8!"
  else if column_size < 4 ∨ column_size > 16 then
    .error "ERROR: The number of columns must be between 4 and 16!"
  else if opponent_type = "human" ∧ (first_player ≠ "player1" ∧ first_player ≠ "player2") then
    .error "ERROR: In 1v1 games, the first move should be made by player1 or player2!"
  else if opponent_type = "computer" ∧ (first_player ≠ "computer" ∧ first_player ≠ "human") then
    .error "ERROR: In the games against computer, the first move should be made by Computer or Human!"
  else
    .ok ()

/-! ### Basic access lemmas -/

theorem getD_set_self {α} (l : List α) (i : Nat) (a d : α) (h : i < l.length) :
    (l.set i a).getD i d = a := by
  simp [List.getD_eq_getElem?_getD, List.getElem?_set_eq_of_lt, h]

theorem getD_set_of_ne {α} (l : List α) {i j : Nat} (a d : α) (h : i ≠ j) :
    (l.set i a).getD j d = l.getD j d := by
  simp [List.getD_eq_getElem?_getD, List.getElem?_set_ne h]

theorem bounds_of_cellAt_ne_placeholder {state : BoardState} {r c : Nat}
    (h : cellAt state r c ≠ '?') :
    r < state.length ∧ c < (state.getD r []).length := by
  constructor
  · by_contra hr
    push_neg at hr
    rw [cellAt, List.getD_eq_default _ _ hr] at h
    simp [List.getD] at h
  · by_contra hc
    push_neg at hc
    rw [cellAt, List.getD_eq_default _ _ hc] at h
    exact h rfl

theorem cellAt_setCell_self {state : BoardState} {r c : Nat} (v : Char)
    (hr : r < state.length) (hc : c < (state.getD r []).length) :
    cellAt (setCell state r c v) r c = v := by
  unfold cellAt setCell
  rw [getD_set_self _ _ _ _ hr]
  exact getD_set_self _ _ _ _ hc

theorem cellAt_setCell_of_ne {state : BoardState} {r c : Nat} (v : Char)
    {i j : Nat} (h : ¬(i = r ∧ j = c)) :
    cellAt (setCell state r c v) i j = cellAt state i j := by
  unfold cellAt setCell
  by_cases hi : i = r
  · have hj : j ≠ c := fun hj => h ⟨hi, hj⟩
    by_cases hr : r < state.length
    · rw [hi, getD_set_self _ _ _ _ hr, getD_set_of_ne _ _ _ (Ne.symm hj)]
    · push_neg at hr
      rw [List.set_eq_of_length_le (by simpa using hr)]
  · rw [getD_set_of_ne _ _ _ (fun hri => hi hri.symm)]

/-! ### find_drop_row: the bottom-up scan of make_move -/

theorem find_drop_row_eq_none {state : BoardState} {col : Nat} :
    ∀ {n : Nat}, find_drop_row state col n = none ↔ ∀ r < n, cellAt state r col ≠ '.'
  | 0 => by simp [find_drop_row]
  | n + 1 => by
    rw [find_drop_row]
    by_cases h : cellAt state n col = '.'
    · simp only [h, if_pos rfl, reduceIte]
      constructor
      · intro hfalse; cases hfalse
      · intro hall; exact absurd h (hall n (Nat.lt_succ_self n))
    · rw [if_neg h, find_drop_row_eq_none]
      constructor
      · intro hall r hr
        rcases Nat.lt_succ_iff_lt_or_eq.mp hr with hlt | heq
        · exact hall r hlt
        · subst heq; exact h
      · intro hall r hr; exact hall r (Nat.lt_succ_of_lt hr)

theorem find_drop_row_eq_some {state : BoardState} {col : Nat} :
    ∀ {n r : Nat}, find_drop_row state col n = some r →
      r < n ∧ cellAt state r col = '.' ∧
        ∀ r', r < r' → r' < n → cellAt state r' col ≠ '.'
  | 0, r => by simp [find_drop_row]
  | n + 1, r => by
    rw [find_drop_row]
    by_cases h : cellAt state n col = '.'
    · rw [if_pos h]
      intro hsome
      cases hsome
      exact ⟨Nat.lt_succ_self n, h, fun r' h1 h2 => absurd (Nat.lt_of_lt_of_le h1 (Nat.lt_succ_iff.mp h2)) (Nat.lt_irrefl _)⟩
    · rw [if_neg h]
      intro hsome
      obtain ⟨hlt, hcell, hall⟩ := find_drop_row_eq_some hsome
      refine ⟨Nat.lt_succ_of_lt hlt, hcell, fun r' h1 h2 => ?_⟩
      rcases Nat.lt_succ_iff_lt_or_eq.mp h2 with h2' | h2'
      · exact hall r' h1 h2'
      · subst h2'; exact h

theorem find_drop_row_isSome {state : BoardState} {col r0 : Nat}
    (hcell : cellAt state r0 col = '.') :
    ∀ {n : Nat}, r0 < n → ∃ r, find_drop_row state col n = some r
  | 0, h => absurd h (Nat.not_lt_zero r0)
  | n + 1, h => by
    rw [find_drop_row]
    by_cases hn : cellAt state n col = '.'
    · exact ⟨n, if_pos hn⟩
    · have : r0 ≠ n := fun he => hn (he ▸ hcell)
      rw [if_neg hn]
      exact find_drop_row_isSome hcell (Nat.lt_of_le_of_ne (Nat.lt_succ_iff.mp h) this)

/-! ### Claims about make_move -/

/-- C3: for every board state and legal column (top cell Empty), make_move
places the mark at the lowest Empty row of that column — the greatest row
index whose cell was Empty — and leaves every other cell unchanged. -/
theorem make_move_places_lowest (state : BoardState) (col : Nat) (player : Char)
    (hlegal : cellAt state 0 col = '.') :
    ∃ r, r < state.length ∧ cellAt state r col = '.' ∧
      (∀ r', r < r' → r' < state.length → cellAt state r' col ≠ '.') ∧
      cellAt (make_move state col player) r col = player ∧
      ∀ i j, ¬(i = r ∧ j = col) →
        cellAt (make_move state col player) i j = cellAt state i j := by
  have h0 : 0 < state.length :=
    (bounds_of_cellAt_ne_placeholder (by rw [hlegal]; decide)).1
  obtain ⟨r, hfind⟩ := find_drop_row_isSome hlegal h0
  obtain ⟨hr, hcell, habove⟩ := find_drop_row_eq_some hfind
  have hbounds := bounds_of_cellAt_ne_placeholder (c := col) (r := r)
    (by rw [hcell]; decide)
  refine ⟨r, hr, hcell, habove, ?_, ?_⟩
  · rw [make_move, hfind]
    exact cellAt_setCell_self player hbounds.1 hbounds.2
  · intro i j hij
    rw [make_move, hfind]
    exact cellAt_setCell_of_ne player hij

/-- C3 witness: on the 2x2 board with column 0 half filled, the mark lands
in row 0 (the lowest empty row of that column) and nothing else changes. -/
theorem make_move_places_lowest_witness :
    ∃ r, r < ([['.', '.'], ['X', '.']] : BoardState).length ∧
      cellAt [['.', '.'], ['X', '.']] r 0 = '.' ∧
      (∀ r', r < r' → r' < ([['.', '.'], ['X', '.']] : BoardState).length →
        cellAt [['.', '.'], ['X', '.']] r' 0 ≠ '.') ∧
      cellAt (make_move [['.', '.'], ['X', '.']] 0 'O') r 0 = 'O' ∧
      ∀ i j, ¬(i = r ∧ j = 0) →
        cellAt (make_move [['.', '.'], ['X', '.']] 0 'O') i j =
          cellAt [['.', '.'], ['X', '.']] i j :=
  make_move_places_lowest [['.', '.'], ['X', '.']] 0 'O' (by decide)

/-- C2 counterexample: on a board whose column 0 is completely full, make_move
returns normally with the input state unchanged; no InvalidMove error exists
anywhere in the code, so the claimed failure cannot occur. -/
theorem make_move_full_returns_normally :
    make_move [['X'], ['O']] 0 'X' = [['X'], ['O']] := by decide

/-- Shared helper: with no Empty cell in the column, the bottom-up scan finds
nothing and make_move returns the copied state unchanged. -/
theorem make_move_eq_self_of_no_empty (state : BoardState) (col : Nat) (player : Char)
    (hfull : ∀ r < state.length, cellAt state r col ≠ '.') :
    make_move state col player = state := by
  rw [make_move, find_drop_row_eq_none.mpr hfull]

/-- C2 amended: a move into a column with no Empty cell is not an error at
all — make_move returns the input state unchanged (the bottom-up scan finds
no empty cell and the copy is returned as is). -/
theorem make_move_full_is_noop (state : BoardState) (col : Nat) (player : Char)
    (hfull : ∀ r < state.length, cellAt state r col ≠ '.') :
    make_move state col player = state :=
  make_move_eq_self_of_no_empty state col player hfull

/-- C2 amended witness. -/
theorem make_move_full_is_noop_witness :
    make_move [['O'], ['X']] 0 'O' = [['O'], ['X']] :=
  make_move_full_is_noop [['O'], ['X']] 0 'O' (by decide)

/-- C10 counterexample: a column whose top cell is occupied need not be full;
on [[X], [.]] the top of column 0 is X, yet make_move fills the lower empty
cell, so the returned board differs from the input. -/
theorem make_move_top_filled_not_noop :
    cellAt [['X'], ['.']] 0 0 ≠ '.' ∧
      make_move [['X'], ['.']] 0 'O' ≠ [['X'], ['.']] := by decide

/-- C10 amended: when the column has no Empty cell at all (which is what a
full column is; under the gravity invariant this coincides with the top cell
being occupied), make_move is a silent no-op: the returned board equals the
input, cell for cell, and no error is raised. -/
theorem make_move_no_empty_noop (state : BoardState) (move : Nat) (player : Char)
    (hfull : ∀ r < state.length, cellAt state r move ≠ '.') :
    make_move state move player = state ∧
      ∀ i j, cellAt (make_move state move player) i j = cellAt state i j := by
  have h := make_move_eq_self_of_no_empty state move player hfull
  exact ⟨h, fun i j => by rw [h]⟩

/-- C10 amended witness. -/
theorem make_move_no_empty_noop_witness :
    make_move [['X'], ['X']] 0 'O' = [['X'], ['X']] ∧
      ∀ i j, cellAt (make_move [['X'], ['X']] 0 'O') i j =
        cellAt [['X'], ['X']] i j :=
  make_move_no_empty_noop [['X'], ['X']] 0 'O' (by decide)

/-! ### Claim about validate -/

/-- C8: validate accepts exactly the configurations with a known opponent
type, rows in [4,8], columns in [4,16] and a first mover consistent with the
opponent type; any other configuration yields a descriptive error value and
the game is not started (validate only calls FourInROW_game in its else
branch, i.e. exactly when no check raised). -/
theorem validate_spec (opponent_type : String) (row_size column_size : Int)
    (first_player : String) :
    (validate opponent_type row_size column_size first_player = .ok () ↔
      ((opponent_type = "human" ∨ opponent_type = "computer")
        ∧ (4 ≤ row_size ∧ row_size ≤ 8)
        ∧ (4 ≤ column_size ∧ column_size ≤ 16)
        ∧ (opponent_type = "human" → first_player = "player1" ∨ first_player = "player2")
        ∧ (opponent_type = "computer" → first_player = "human" ∨ first_player = "computer")))
    ∧ (validate opponent_type row_size column_size first_player ≠ .ok () →
        ∃ msg, validate opponent_type row_size column_size first_player = .error msg) := by
  constructor
  · unfold validate
    split_ifs with h1 h2 h3 h4 h5
    · simp only [reduceCtorEq, false_iff]
      push_neg at h1
      tauto
    · simp only [reduceCtorEq, false_iff]
      rintro ⟨-, hr, -, -, -⟩
      omega
    · simp only [reduceCtorEq, false_iff]
      rintro ⟨-, -, hc, -, -⟩
      omega
    · simp only [reduceCtorEq, false_iff]
      push_neg at h1 h4
      tauto
    · simp only [reduceCtorEq, false_iff]
      push_neg at h1 h5
      tauto
    · simp only [true_iff]
      push_neg at h1 h2 h3 h4 h5
      refine ⟨?_, by omega, by omega, ?_, ?_⟩ <;> tauto
  · intro h
    cases hv : validate opponent_type row_size column_size first_player with
    | error e => exact ⟨e, rfl⟩
    | ok u => cases u; exact absurd hv h

/-- C8 witness: a valid configuration passes, an invalid one yields an
error message. -/
theorem validate_spec_witness :
    validate "computer" 6 7 "human" = .ok ()
    ∧ ∃ msg, validate "alien" 6 7 "human" = .error msg :=
  ⟨(validate_spec "computer" 6 7 "human").1.mpr
      ⟨Or.inr rfl, by omega, by omega, by simp, fun _ => Or.inl rfl⟩,
   (validate_spec "alien" 6 7 "human").2 (fun h => Except.noConfusion h)⟩

/-! ### Claim about the Easy-mode first-move flag -/

/-- A concrete Easy-mode match: 4x4 board, computer moves first. -/
def easyDemo : GameAI := GameAI.init 4 4 "computer" "Easy"

/-- C1 (code bug): the first Easy-mode computer turn does take the depth-0
find_best_move branch, but that branch assigns "Smart" to the attribute
start_move and never updates last_move, which keeps its initial value
"Random"; hence after the first computer move and the human reply the second
computer turn again takes the depth-0 branch — the per-match flag never
flips and the uniformly-random path is unreachable, contradicting the
specified behavior. -/
theorem easy_mode_flag_never_flips :
    easy_branch_path easyDemo = .smart
    ∧ (easy_smart_turn easyDemo).last_move = "Random"
    ∧ (easy_smart_turn easyDemo).start_move = some "Smart"
    ∧ easy_branch_path (human_turn (easy_smart_turn easyDemo) 0) = .smart := by
  decide

/-! ### Claim about the evaluator -/

/-- The per-window score exactly as the specification words it (MarkB rows
first, then MarkA rows, any other window — including mixed windows — zero). -/
def specWindowScore (w : List Char) : Int :=
  if w.count 'O' = 4 then 100
  else if w.count 'O' = 3 ∧ w.count '.' = 1 then 5
  else if w.count 'O' = 2 ∧ w.count '.' = 2 then 2
  else if w.count 'X' = 4 then -100
  else if w.count 'X' = 3 ∧ w.count '.' = 1 then -5
  else if w.count 'X' = 2 ∧ w.count '.' = 2 then -2
  else 0

/-- Every length-4 window of every row, column and both diagonals, in the
scan order of evaluate. -/
def allWindows (state : BoardState) : List (List Char) :=
  rowWindows state ++ colWindows state ++ diag1Windows state ++ diag2Windows state

theorem count_add_count_le_length {α} [DecidableEq α] (l : List α) {a b : α}
    (h : a ≠ b) : l.count a + l.count b ≤ l.length := by
  induction l with
  | nil => simp
  | cons x l ih =>
    simp only [List.count_cons, List.length_cons, beq_iff_eq]
    split_ifs with h1 h2 h2
    · subst_vars
      exact absurd rfl h
    · omega
    · omega
    · omega

theorem evaluate_window_eq_spec {w : List Char} (h4 : w.length = 4) :
    evaluate_window w = specWindowScore w := by
  have hOX := count_add_count_le_length w (show 'O' ≠ 'X' by decide)
  have hXd := count_add_count_le_length w (show 'X' ≠ '.' by decide)
  rw [h4] at hOX hXd
  unfold evaluate_window specWindowScore
  split_ifs <;> omega

theorem length_of_mem_rowWindows {state : BoardState} {w : List Char}
    (h : w ∈ rowWindows state) : w.length = 4 := by
  rw [rowWindows] at h
  simp only [List.mem_flatMap, List.mem_map, List.mem_range] at h
  obtain ⟨row, -, col, hcol, rfl⟩ := h
  simp only [List.length_take, List.length_drop]
  omega

theorem length_of_mem_allWindows {state : BoardState} {w : List Char}
    (h : w ∈ allWindows state) : w.length = 4 := by
  rw [allWindows] at h
  simp only [List.mem_append] at h
  rcases h with ((h | h) | h) | h
  · exact length_of_mem_rowWindows h
  all_goals
    first
    | (rw [colWindows] at h
       simp only [List.mem_flatMap, List.mem_map, List.mem_range] at h
       obtain ⟨a, -, b, -, rfl⟩ := h
       simp)
    | (rw [diag1Windows] at h
       simp only [List.mem_flatMap, List.mem_map, List.mem_range] at h
       obtain ⟨a, -, b, -, rfl⟩ := h
       simp)
    | (rw [diag2Windows] at h
       simp only [List.mem_flatMap, List.mem_map, List.mem_range, List.mem_range'] at h
       obtain ⟨a, -, b, -, rfl⟩ := h
       simp)

/-- C6: the evaluator score is the sum, over every length-4 window in every
row, every column and both diagonal directions, of the per-window score
table exactly as the specification states it. -/
theorem evaluate_eq_spec_sum (state : BoardState) :
    evaluate state = ((allWindows state).map specWindowScore).sum := by
  have hcongr : ∀ l : List (List Char), (∀ w ∈ l, w ∈ allWindows state) →
      (l.map evaluate_window).sum = (l.map specWindowScore).sum := by
    intro l hl
    congr 1
    exact List.map_congr_left fun w hw =>
      evaluate_window_eq_spec (length_of_mem_allWindows (hl w hw))
  rw [evaluate, allWindows]
  simp only [List.map_append, List.sum_append]
  rw [hcongr (rowWindows state) (fun w hw => by simp [allWindows, hw]),
    hcongr (colWindows state) (fun w hw => by simp [allWindows, hw]),
    hcongr (diag1Windows state) (fun w hw => by simp [allWindows, hw]),
    hcongr (diag2Windows state) (fun w hw => by simp [allWindows, hw])]

/-! ### Claim about minimax -/

instance : Std.Associative XInt.max :=
  ⟨fun a b c => by cases a <;> cases b <;> cases c <;> simp [XInt.max, max_assoc]⟩

instance : Std.Commutative XInt.max :=
  ⟨fun a b => by cases a <;> cases b <;> simp [XInt.max, max_comm]⟩

instance : Std.Associative XInt.min :=
  ⟨fun a b c => by cases a <;> cases b <;> cases c <;> simp [XInt.min, min_assoc]⟩

instance : Std.Commutative XInt.min :=
  ⟨fun a b => by cases a <;> cases b <;> simp [XInt.min, min_comm]⟩

/-- C7: minimax returns exactly the static evaluation when the depth is 0 or
the state is terminal (no special large value for decided positions), and
otherwise the maximum (maximizing, children by an 'O' move) or minimum
(minimizing, children by an 'X' move) of the recursive values at depth - 1
with the flag flipped, over every legal column — full width, no pruning. -/
theorem minimax_spec (state : BoardState) (d : Nat) (b : Bool) :
    minimax state d b =
      if d = 0 ∨ is_terminal state = true then .fin (evaluate state)
      else if b then
        ((get_possible_moves state).map
          (fun m => minimax (make_move state m 'O') (d - 1) false)).foldr XInt.max .negInf
      else
        ((get_possible_moves state).map
          (fun m => minimax (make_move state m 'X') (d - 1) true)).foldr XInt.min .posInf := by
  cases d with
  | zero => simp [minimax]
  | succ d =>
    by_cases hterm : is_terminal state = true
    · rw [minimax]
      simp [hterm]
    · cases b with
      | true =>
        rw [minimax]
        simp only [Nat.succ_ne_zero, false_or, hterm, if_false, if_true,
          Nat.add_sub_cancel, reduceIte]
        rw [← List.foldl_map, List.foldl_eq_foldr]
      | false =>
        rw [minimax]
        simp only [Nat.succ_ne_zero, false_or, hterm, if_false,
          Bool.false_eq_true, Nat.add_sub_cancel, reduceIte]
        rw [← List.foldl_map, List.foldl_eq_foldr]

/-! ### Claims about is_a_winner -/

theorem findSome?_eq_head?_filterMap {α β} (f : α → Option β) (l : List α) :
    l.findSome? f = (l.filterMap f).head? := by
  induction l with
  | nil => rfl
  | cons a l ih =>
    rw [List.findSome?_cons, List.filterMap_cons]
    cases f a with
    | none => exact ih
    | some b => rfl

theorem head?_append_or {α} (l1 l2 : List α) :
    (l1 ++ l2).head? = l1.head?.or l2.head? := by
  cases l1 <;> simp

theorem is_a_winner_eq_head? (state : BoardState) :
    is_a_winner state = (allWinningLines state).head? := by
  rw [is_a_winner, allWinningLines,
    findSome?_eq_head?_filterMap, findSome?_eq_head?_filterMap,
    findSome?_eq_head?_filterMap, findSome?_eq_head?_filterMap,
    head?_append_or, head?_append_or, head?_append_or,
    Option.or_assoc, Option.or_assoc]

/-- C4: is_a_winner returns its first hit in the fixed scan order — it equals
the head of the list of all winning lines enumerated in that order — and any
reported result is a non-Empty mark with exactly four coordinates of cells
holding that mark, adjacent along one straight line in one of the four scan
directions, listed in the order encountered along the line. -/
theorem is_a_winner_spec (state : BoardState) :
    is_a_winner state = (allWinningLines state).head?
    ∧ ∀ m coords, is_a_winner state = some (m, coords) →
        m ≠ '.' ∧ (∀ p ∈ coords, cellAt state p.1 p.2 = m) ∧
        ∃ r c,
          coords = [(r, c), (r, c + 1), (r, c + 2), (r, c + 3)]
          ∨ coords = [(r, c), (r + 1, c), (r + 2, c), (r + 3, c)]
          ∨ coords = [(r, c), (r + 1, c + 1), (r + 2, c + 2), (r + 3, c + 3)]
          ∨ (3 ≤ r ∧ coords = [(r, c), (r - 1, c + 1), (r - 2, c + 2), (r - 3, c + 3)]) := by
  refine ⟨is_a_winner_eq_head? state, fun m coords h => ?_⟩
  rw [is_a_winner_eq_head? state] at h
  have hmem : (m, coords) ∈ allWinningLines state := List.mem_of_mem_head? h
  rw [allWinningLines] at hmem
  simp only [List.mem_append, List.mem_filterMap] at hmem
  rcases hmem with ((⟨p, hp, hline⟩ | ⟨p, hp, hline⟩) | ⟨p, hp, hline⟩) | ⟨p, hp, hline⟩
  · rw [rowLine] at hline
    split_ifs at hline with hc
    cases hline
    obtain ⟨h1, h2, h3, hne⟩ := hc
    refine ⟨hne, ?_, p.1, p.2, Or.inl rfl⟩
    intro q hq
    simp only [List.mem_cons, List.not_mem_nil, or_false] at hq
    rcases hq with rfl | rfl | rfl | rfl
    · rfl
    · exact h1.symm
    · exact (h1.trans h2).symm
    · exact (h1.trans (h2.trans h3)).symm
  · rw [colLine] at hline
    split_ifs at hline with hc
    cases hline
    obtain ⟨h1, h2, h3, hne⟩ := hc
    refine ⟨hne, ?_, p.1, p.2, Or.inr (Or.inl rfl)⟩
    intro q hq
    simp only [List.mem_cons, List.not_mem_nil, or_false] at hq
    rcases hq with rfl | rfl | rfl | rfl
    · rfl
    · exact h1.symm
    · exact (h1.trans h2).symm
    · exact (h1.trans (h2.trans h3)).symm
  · rw [d1Line] at hline
    split_ifs at hline with hc
    cases hline
    obtain ⟨h1, h2, h3, hne⟩ := hc
    refine ⟨hne, ?_, p.1, p.2, Or.inr (Or.inr (Or.inl rfl))⟩
    intro q hq
    simp only [List.mem_cons, List.not_mem_nil, or_false] at hq
    rcases hq with rfl | rfl | rfl | rfl
    · rfl
    · exact h1.symm
    · exact (h1.trans h2).symm
    · exact (h1.trans (h2.trans h3)).symm
  · rw [d2Line] at hline
    split_ifs at hline with hc
    cases hline
    obtain ⟨h1, h2, h3, hne⟩ := hc
    have hr3 : 3 ≤ p.1 := by
      rw [d2Idx] at hp
      simp only [List.mem_flatMap, List.mem_map, List.mem_range] at hp
      obtain ⟨r, hr, c, hcc, hpe⟩ := hp
      rw [List.mem_range'] at hr
      obtain ⟨i, hi, rfl⟩ := hr
      rw [← hpe]
      omega
    refine ⟨hne, ?_, p.1, p.2, Or.inr (Or.inr (Or.inr ⟨hr3, rfl⟩))⟩
    intro q hq
    simp only [List.mem_cons, List.not_mem_nil, or_false] at hq
    rcases hq with rfl | rfl | rfl | rfl
    · rfl
    · exact h1.symm
    · exact (h1.trans h2).symm
    · exact (h1.trans (h2.trans h3)).symm

/-- C4 witness: on a board with a bottom-row X line, is_a_winner reports mark
X with the four horizontal cells in scan order. -/
theorem is_a_winner_spec_witness :
    ('X' : Char) ≠ '.'
    ∧ (∀ p ∈ [((3 : Nat), (0 : Nat)), (3, 1), (3, 2), (3, 3)],
        cellAt [['.', '.', '.', '.'], ['.', '.', '.', '.'], ['.', '.', 'O', '.'],
          ['X', 'X', 'X', 'X']] p.1 p.2 = 'X')
    ∧ ∃ r c,
        ([((3 : Nat), (0 : Nat)), (3, 1), (3, 2), (3, 3)] : List (Nat × Nat)) =
            [(r, c), (r, c + 1), (r, c + 2), (r, c + 3)]
        ∨ ([((3 : Nat), (0 : Nat)), (3, 1), (3, 2), (3, 3)] : List (Nat × Nat)) =
            [(r, c), (r + 1, c), (r + 2, c), (r + 3, c)]
        ∨ ([((3 : Nat), (0 : Nat)), (3, 1), (3, 2), (3, 3)] : List (Nat × Nat)) =
            [(r, c), (r + 1, c + 1), (r + 2, c + 2), (r + 3, c + 3)]
        ∨ (3 ≤ r ∧ ([((3 : Nat), (0 : Nat)), (3, 1), (3, 2), (3, 3)] : List (Nat × Nat)) =
            [(r, c), (r - 1, c + 1), (r - 2, c + 2), (r - 3, c + 3)]) :=
  (is_a_winner_spec [['.', '.', '.', '.'], ['.', '.', '.', '.'], ['.', '.', 'O', '.'],
    ['X', 'X', 'X', 'X']]).2 'X' [(3, 0), (3, 1), (3, 2), (3, 3)] (by decide)

/-! ### Agreement of the two win detectors -/

/-- A horizontal line of four p marks, in is_winner's index form. -/
def HLineAt (state : BoardState) (p : Char) : Prop :=
  ∃ r c, r < state.length ∧ c + 3 < colsOf state ∧ ∀ i < 4, cellAt state r (c + i) = p

/-- A vertical line of four p marks. -/
def VLineAt (state : BoardState) (p : Char) : Prop :=
  ∃ r c, r + 3 < state.length ∧ c < colsOf state ∧ ∀ i < 4, cellAt state (r + i) c = p

/-- A down-right diagonal line of four p marks. -/
def DLineAt (state : BoardState) (p : Char) : Prop :=
  ∃ r c, r + 3 < state.length ∧ c + 3 < colsOf state ∧ ∀ i < 4, cellAt state (r + i) (c + i) = p

/-- A down-left (equivalently up-right) diagonal line of four p marks, in
is_winner's top-right-anchor form. -/
def ULineAt (state : BoardState) (p : Char) : Prop :=
  ∃ r c, r + 3 < state.length ∧ 3 ≤ c ∧ c < colsOf state ∧
    ∀ i < 4, cellAt state (r + i) (c - i) = p

theorem slice4_forall_iff {row : List Char} {c : Nat} {p : Char}
    (h : c + 4 ≤ row.length) :
    (∀ x ∈ (row.drop c).take 4, x = p) ↔ ∀ i < 4, row.getD (c + i) '?' = p := by
  have hlen : ((row.drop c).take 4).length = 4 := by
    simp only [List.length_take, List.length_drop]
    omega
  constructor
  · intro hall i hi
    have hi' : i < ((row.drop c).take 4).length := by omega
    have hgd : ((row.drop c).take 4)[i] = row.getD (c + i) '?' := by
      rw [List.getElem_take, List.getElem_drop, List.getD_eq_getElem row '?' (by omega)]
    rw [← hgd]
    exact hall _ (List.getElem_mem hi')
  · intro hall x hx
    obtain ⟨i, hi, hxe⟩ := List.mem_iff_getElem.mp hx
    have hgd : ((row.drop c).take 4)[i] = row.getD (c + i) '?' := by
      rw [List.getElem_take, List.getElem_drop,
        List.getD_eq_getElem row '?' (by rw [hlen] at hi; omega)]
    rw [← hxe, hgd]
    exact hall i (by rw [hlen] at hi; exact hi)

theorem cellAt_eq_row_getD {state : BoardState} {r : Nat} (h : r < state.length)
    (c : Nat) : cellAt state r c = (state[r]).getD c '?' := by
  rw [cellAt, List.getD_eq_getElem state [] h]

/-- is_winner is exactly the existence of a line in one of the four
directions. -/
theorem is_winner_iff {state : BoardState} (hrect : Rect state) (p : Char) :
    is_winner state p = true ↔
      HLineAt state p ∨ VLineAt state p ∨ DLineAt state p ∨ ULineAt state p := by
  rw [is_winner]
  simp only [Bool.or_eq_true, List.any_eq_true, List.all_eq_true, List.mem_range,
    List.mem_range', decide_eq_true_eq]
  constructor
  · rintro (((⟨row, hrow, col, hcol, hall⟩ | ⟨col, hcol, row, hrow, hall⟩) |
      ⟨row, hrow, col, hcol, hall⟩) | ⟨row, hrow, col, ⟨i, hi, hcol⟩, hall⟩)
    · left
      obtain ⟨r, hr, hre⟩ := List.mem_iff_getElem.mp hrow
      have hlen : row.length = colsOf state := hrect row hrow
      refine ⟨r, col, hr, by omega, fun i hi => ?_⟩
      rw [cellAt_eq_row_getD hr, hre]
      exact (slice4_forall_iff (by omega)).mp hall i hi
    · right; left
      exact ⟨row, col, by omega, hcol, fun i hi => hall i hi⟩
    · right; right; left
      exact ⟨row, col, by omega, by omega, fun i hi => hall i hi⟩
    · right; right; right
      exact ⟨row, col, by omega, by omega, by omega, fun j hj => hall j hj⟩
  · rintro (⟨r, c, hr, hc, hall⟩ | ⟨r, c, hr, hc, hall⟩ | ⟨r, c, hr, hc, hall⟩ |
      ⟨r, c, hr, hc3, hc, hall⟩)
    · left; left; left
      have hmem := List.getElem_mem hr
      have hlen := hrect state[r] hmem
      refine ⟨state[r], hmem, c, by omega, ?_⟩
      intro x hx
      exact (slice4_forall_iff (by omega)).mpr
        (fun i hi => by
          rw [← cellAt_eq_row_getD hr]
          exact hall i hi) x hx
    · left; left; right
      exact ⟨c, hc, r, by omega, fun i hi => hall i hi⟩
    · left; right
      exact ⟨r, by omega, c, by omega, fun i hi => hall i hi⟩
    · right
      exact ⟨r, by omega, c, ⟨c - 3, by omega, by omega⟩, fun i hi => hall i hi⟩

theorem line_of_is_a_winner {state : BoardState} {m : Char} {coords : List (Nat × Nat)}
    (h : is_a_winner state = some (m, coords)) :
    m ≠ '.'
    ∧ (∃ r c, r < state.length ∧ c < colsOf state ∧ cellAt state r c = m)
    ∧ (HLineAt state m ∨ VLineAt state m ∨ DLineAt state m ∨ ULineAt state m) := by
  rw [is_a_winner_eq_head? state] at h
  have hmem : (m, coords) ∈ allWinningLines state := List.mem_of_mem_head? h
  rw [allWinningLines] at hmem
  simp only [List.mem_append, List.mem_filterMap] at hmem
  rcases hmem with ((⟨q, hq, hline⟩ | ⟨q, hq, hline⟩) | ⟨q, hq, hline⟩) | ⟨q, hq, hline⟩
  · rw [rowIdx] at hq
    simp only [List.mem_flatMap, List.mem_map, List.mem_range] at hq
    obtain ⟨r, hr, c, hc, rfl⟩ := hq
    rw [rowLine] at hline
    split_ifs at hline with hcond
    cases hline
    obtain ⟨h1, h2, h3, hne⟩ := hcond
    have cells : ∀ i < 4, cellAt state r (c + i) = cellAt state r c := by
      intro i hi
      interval_cases i
      · simp only [Nat.add_zero]
      · exact h1.symm
      · exact (h1.trans h2).symm
      · exact (h1.trans (h2.trans h3)).symm
    exact ⟨hne, ⟨r, c, hr, by omega, rfl⟩, Or.inl ⟨r, c, hr, by omega, cells⟩⟩
  · rw [colIdx] at hq
    simp only [List.mem_flatMap, List.mem_map, List.mem_range] at hq
    obtain ⟨r, hr, c, hc, rfl⟩ := hq
    rw [colLine] at hline
    split_ifs at hline with hcond
    cases hline
    obtain ⟨h1, h2, h3, hne⟩ := hcond
    have cells : ∀ i < 4, cellAt state (r + i) c = cellAt state r c := by
      intro i hi
      interval_cases i
      · simp only [Nat.add_zero]
      · exact h1.symm
      · exact (h1.trans h2).symm
      · exact (h1.trans (h2.trans h3)).symm
    exact ⟨hne, ⟨r, c, by omega, hc, rfl⟩, Or.inr (Or.inl ⟨r, c, by omega, hc, cells⟩)⟩
  · rw [d1Idx] at hq
    simp only [List.mem_flatMap, List.mem_map, List.mem_range] at hq
    obtain ⟨r, hr, c, hc, rfl⟩ := hq
    rw [d1Line] at hline
    split_ifs at hline with hcond
    cases hline
    obtain ⟨h1, h2, h3, hne⟩ := hcond
    have cells : ∀ i < 4, cellAt state (r + i) (c + i) = cellAt state r c := by
      intro i hi
      interval_cases i
      · simp only [Nat.add_zero]
      · exact h1.symm
      · exact (h1.trans h2).symm
      · exact (h1.trans (h2.trans h3)).symm
    exact ⟨hne, ⟨r, c, by omega, by omega, rfl⟩,
      Or.inr (Or.inr (Or.inl ⟨r, c, by omega, by omega, cells⟩))⟩
  · rw [d2Idx] at hq
    simp only [List.mem_flatMap, List.mem_map, List.mem_range, List.mem_range'] at hq
    obtain ⟨r, ⟨i, hi, hre⟩, c, hc, rfl⟩ := hq
    rw [d2Line] at hline
    split_ifs at hline with hcond
    cases hline
    obtain ⟨h1, h2, h3, hne⟩ := hcond
    have hr3 : 3 ≤ r := by omega
    have hrlen : r < state.length := by omega
    have cells : ∀ j < 4, cellAt state (r - j) (c + j) = cellAt state r c := by
      intro j hj
      interval_cases j
      · simp only [Nat.add_zero, Nat.sub_zero]
      · exact h1.symm
      · exact (h1.trans h2).symm
      · exact (h1.trans (h2.trans h3)).symm
    refine ⟨hne, ⟨r, c, hrlen, by omega, rfl⟩, Or.inr (Or.inr (Or.inr ?_))⟩
    refine ⟨r - 3, c + 3, by omega, by omega, by omega, fun j hj => ?_⟩
    have e1 : r - 3 + j = r - (3 - j) := by omega
    have e2 : c + 3 - j = c + (3 - j) := by omega
    rw [e1, e2]
    exact cells (3 - j) (by omega)

theorem is_a_winner_ne_none_of_line {state : BoardState} {p : Char} (hp : p ≠ '.')
    (h : HLineAt state p ∨ VLineAt state p ∨ DLineAt state p ∨ ULineAt state p) :
    is_a_winner state ≠ none := by
  rw [is_a_winner_eq_head? state]
  have hmem : ∃ x, x ∈ allWinningLines state := by
    rw [allWinningLines]
    rcases h with ⟨r, c, hr, hc, hall⟩ | ⟨r, c, hr, hc, hall⟩ | ⟨r, c, hr, hc, hall⟩ |
      ⟨r, c, hr, hc3, hc, hall⟩
    · have e0 : cellAt state r c = p := by
        have := hall 0 (by omega)
        rwa [Nat.add_zero] at this
      have hcond : cellAt state r c = cellAt state r (c + 1)
          ∧ cellAt state r (c + 1) = cellAt state r (c + 2)
          ∧ cellAt state r (c + 2) = cellAt state r (c + 3)
          ∧ cellAt state r c ≠ '.' :=
        ⟨e0.trans (hall 1 (by omega)).symm,
         (hall 1 (by omega)).trans (hall 2 (by omega)).symm,
         (hall 2 (by omega)).trans (hall 3 (by omega)).symm,
         by rw [e0]; exact hp⟩
      have hline : rowLine state (r, c) =
          some (cellAt state r c, [(r, c), (r, c + 1), (r, c + 2), (r, c + 3)]) := by
        rw [rowLine]
        exact if_pos hcond
      have hidx : (r, c) ∈ rowIdx state.length (colsOf state) := by
        rw [rowIdx]
        simp only [List.mem_flatMap, List.mem_map, List.mem_range]
        exact ⟨r, hr, c, by omega, rfl⟩
      exact ⟨_, List.mem_append_of_mem_left _ (List.mem_append_of_mem_left _
        (List.mem_append_of_mem_left _
          (List.mem_filterMap.mpr ⟨(r, c), hidx, hline⟩)))⟩
    · have e0 : cellAt state r c = p := by
        have := hall 0 (by omega)
        rwa [Nat.add_zero] at this
      have hcond : cellAt state r c = cellAt state (r + 1) c
          ∧ cellAt state (r + 1) c = cellAt state (r + 2) c
          ∧ cellAt state (r + 2) c = cellAt state (r + 3) c
          ∧ cellAt state r c ≠ '.' :=
        ⟨e0.trans (hall 1 (by omega)).symm,
         (hall 1 (by omega)).trans (hall 2 (by omega)).symm,
         (hall 2 (by omega)).trans (hall 3 (by omega)).symm,
         by rw [e0]; exact hp⟩
      have hline : colLine state (r, c) =
          some (cellAt state r c, [(r, c), (r + 1, c), (r + 2, c), (r + 3, c)]) := by
        rw [colLine]
        exact if_pos hcond
      have hidx : (r, c) ∈ colIdx state.length (colsOf state) := by
        rw [colIdx]
        simp only [List.mem_flatMap, List.mem_map, List.mem_range]
        exact ⟨r, by omega, c, hc, rfl⟩
      exact ⟨_, List.mem_append_of_mem_left _ (List.mem_append_of_mem_left _
        (List.mem_append_of_mem_right _
          (List.mem_filterMap.mpr ⟨(r, c), hidx, hline⟩)))⟩
    · have e0 : cellAt state r c = p := by
        have := hall 0 (by omega)
        rwa [Nat.add_zero] at this
      have hcond : cellAt state r c = cellAt state (r + 1) (c + 1)
          ∧ cellAt state (r + 1) (c + 1) = cellAt state (r + 2) (c + 2)
          ∧ cellAt state (r + 2) (c + 2) = cellAt state (r + 3) (c + 3)
          ∧ cellAt state r c ≠ '.' :=
        ⟨e0.trans (hall 1 (by omega)).symm,
         (hall 1 (by omega)).trans (hall 2 (by omega)).symm,
         (hall 2 (by omega)).trans (hall 3 (by omega)).symm,
         by rw [e0]; exact hp⟩
      have hline : d1Line state (r, c) =
          some (cellAt state r c,
            [(r, c), (r + 1, c + 1), (r + 2, c + 2), (r + 3, c + 3)]) := by
        rw [d1Line]
        exact if_pos hcond
      have hidx : (r, c) ∈ d1Idx state.length (colsOf state) := by
        rw [d1Idx]
        simp only [List.mem_flatMap, List.mem_map, List.mem_range]
        exact ⟨r, by omega, c, by omega, rfl⟩
      exact ⟨_, List.mem_append_of_mem_left _ (List.mem_append_of_mem_right _
        (List.mem_filterMap.mpr ⟨(r, c), hidx, hline⟩))⟩
    · have cells : ∀ j < 4, cellAt state (r + 3 - j) (c - 3 + j) = p := by
        intro j hj
        have e1 : r + 3 - j = r + (3 - j) := by omega
        have e2 : c - 3 + j = c - (3 - j) := by omega
        rw [e1, e2]
        exact hall (3 - j) (by omega)
      have e0 : cellAt state (r + 3) (c - 3) = p := by
        simpa using cells 0 (by omega)
      have hcond : cellAt state (r + 3) (c - 3) = cellAt state (r + 3 - 1) (c - 3 + 1)
          ∧ cellAt state (r + 3 - 1) (c - 3 + 1) = cellAt state (r + 3 - 2) (c - 3 + 2)
          ∧ cellAt state (r + 3 - 2) (c - 3 + 2) = cellAt state (r + 3 - 3) (c - 3 + 3)
          ∧ cellAt state (r + 3) (c - 3) ≠ '.' :=
        ⟨e0.trans (cells 1 (by omega)).symm,
         (cells 1 (by omega)).trans (cells 2 (by omega)).symm,
         (cells 2 (by omega)).trans (cells 3 (by omega)).symm,
         by rw [e0]; exact hp⟩
      have hline : d2Line state (r + 3, c - 3) =
          some (cellAt state (r + 3) (c - 3),
            [(r + 3, c - 3), (r + 3 - 1, c - 3 + 1), (r + 3 - 2, c - 3 + 2),
              (r + 3 - 3, c - 3 + 3)]) := by
        rw [d2Line]
        exact if_pos hcond
      have hidx : (r + 3, c - 3) ∈ d2Idx state.length (colsOf state) := by
        rw [d2Idx]
        simp only [List.mem_flatMap, List.mem_map, List.mem_range, List.mem_range']
        exact ⟨r + 3, ⟨r, by omega, by omega⟩, c - 3, by omega, rfl⟩
      exact ⟨_, List.mem_append_of_mem_right _
        (List.mem_filterMap.mpr ⟨(r + 3, c - 3), hidx, hline⟩)⟩
  obtain ⟨x, hx⟩ := hmem
  intro hnone
  rw [List.head?_eq_none_iff] at hnone
  rw [hnone] at hx
  exact List.not_mem_nil x hx

theorem valid_cellAt {state : BoardState} (hrect : Rect state) (hvalid : ValidCells state)
    {r c : Nat} (hr : r < state.length) (hc : c < colsOf state) :
    cellAt state r c = '.' ∨ cellAt state r c = 'X' ∨ cellAt state r c = 'O' := by
  have hmem := List.getElem_mem hr
  have hlen : (state[r]).length = colsOf state := hrect _ hmem
  rw [cellAt_eq_row_getD hr, List.getD_eq_getElem _ _ (by omega)]
  exact hvalid state[r] hmem _ (List.getElem_mem _)

/-- C9: on rectangular boards over the game alphabet the two win detectors
agree — the list-returning is_a_winner (shared verbatim by GAME_AI and
GAME_1V1) finds a winner exactly when MINIMAX_ALGORITHM's boolean is_winner
holds for 'X' or for 'O', and any mark it reports satisfies is_winner. -/
theorem winners_agree (state : BoardState) (hrect : Rect state)
    (hvalid : ValidCells state) :
    ((is_a_winner state ≠ none) ↔
      (is_winner state 'X' = true ∨ is_winner state 'O' = true))
    ∧ ∀ m coords, is_a_winner state = some (m, coords) → is_winner state m = true := by
  have hsnd : ∀ m coords, is_a_winner state = some (m, coords) →
      is_winner state m = true := by
    intro m coords h
    obtain ⟨hne, hcell, hlines⟩ := line_of_is_a_winner h
    exact (is_winner_iff hrect m).mpr hlines
  refine ⟨⟨?_, ?_⟩, hsnd⟩
  · intro h
    cases hw : is_a_winner state with
    | none => exact absurd hw h
    | some y =>
      obtain ⟨m, coords⟩ := y
      obtain ⟨hne, ⟨r, c, hr, hc, hcm⟩, hlines⟩ := line_of_is_a_winner hw
      have hv := valid_cellAt hrect hvalid hr hc
      rw [hcm] at hv
      rcases hv with h' | h' | h'
      · exact absurd h' hne
      · exact Or.inl (h' ▸ hsnd m coords hw)
      · exact Or.inr (h' ▸ hsnd m coords hw)
  · intro h
    rcases h with h | h
    · exact is_a_winner_ne_none_of_line (by decide) ((is_winner_iff hrect 'X').mp h)
    · exact is_a_winner_ne_none_of_line (by decide) ((is_winner_iff hrect 'O').mp h)

/-- C9 witness: on a concrete board with an X row, both detectors agree. -/
theorem winners_agree_witness :
    ((is_a_winner [['.', '.', '.', '.'], ['.', '.', '.', '.'], ['.', '.', 'O', '.'],
        ['X', 'X', 'X', 'X']] ≠ none) ↔
      (is_winner [['.', '.', '.', '.'], ['.', '.', '.', '.'], ['.', '.', 'O', '.'],
        ['X', 'X', 'X', 'X']] 'X' = true
      ∨ is_winner [['.', '.', '.', '.'], ['.', '.', '.', '.'], ['.', '.', 'O', '.'],
        ['X', 'X', 'X', 'X']] 'O' = true))
    ∧ ∀ m coords,
        is_a_winner [['.', '.', '.', '.'], ['.', '.', '.', '.'], ['.', '.', 'O', '.'],
          ['X', 'X', 'X', 'X']] = some (m, coords) →
        is_winner [['.', '.', '.', '.'], ['.', '.', '.', '.'], ['.', '.', 'O', '.'],
          ['X', 'X', 'X', 'X']] m = true :=
  winners_agree [['.', '.', '.', '.'], ['.', '.', '.', '.'], ['.', '.', 'O', '.'],
    ['X', 'X', 'X', 'X']] (by unfold Rect colsOf; decide) (by unfold ValidCells; decide)

/-! ### Gravity: reachable boards have their empty cells on top -/

/-- The gravity invariant of reachable boards: in every column, the cell
below a filled cell is filled. -/
def Gravity (state : BoardState) : Prop :=
  ∀ c < colsOf state, ∀ r < state.length - 1,
    cellAt state r c ≠ '.' → cellAt state (r + 1) c ≠ '.'

theorem gravity_down {state : BoardState} (hg : Gravity state) {c r : Nat}
    (hc : c < colsOf state) (h : cellAt state r c ≠ '.') :
    ∀ r', r ≤ r' → r' < state.length → cellAt state r' c ≠ '.' := by
  intro r' hr
  induction r', hr using Nat.le_induction with
  | base => exact fun _ => h
  | succ k hk ih => exact fun hlt => hg c hc k (by omega) (ih (by omega))

theorem length_setCell (state : BoardState) (r c : Nat) (v : Char) :
    (setCell state r c v).length = state.length := by
  rw [setCell, List.length_set]

theorem colsOf_setCell (state : BoardState) (r c : Nat) (v : Char) :
    colsOf (setCell state r c v) = colsOf state := by
  rw [setCell, colsOf, colsOf]
  cases state with
  | nil => rfl
  | cons hd tl =>
    cases r with
    | zero => simp [List.set]
    | succ n => simp [List.set]

theorem length_make_move (state : BoardState) (col : Nat) (player : Char) :
    (make_move state col player).length = state.length := by
  rw [make_move]
  cases find_drop_row state col state.length with
  | none => rfl
  | some r => exact length_setCell state r col player

theorem colsOf_make_move (state : BoardState) (col : Nat) (player : Char) :
    colsOf (make_move state col player) = colsOf state := by
  rw [make_move]
  cases find_drop_row state col state.length with
  | none => rfl
  | some r => exact colsOf_setCell state r col player

theorem Rect_setCell {state : BoardState} (hrect : Rect state) {r : Nat}
    (hr : r < state.length) (c : Nat) (v : Char) : Rect (setCell state r c v) := by
  intro row' hmem
  rw [colsOf_setCell]
  rcases List.mem_or_eq_of_mem_set hmem with h | rfl
  · exact hrect _ h
  · rw [List.length_set]
    exact hrect _ (by rw [List.getD_eq_getElem _ _ hr]; exact List.getElem_mem hr)

theorem Rect_make_move {state : BoardState} (hrect : Rect state) (col : Nat)
    (player : Char) : Rect (make_move state col player) := by
  rw [make_move]
  cases hfind : find_drop_row state col state.length with
  | none => exact hrect
  | some r => exact Rect_setCell hrect (find_drop_row_eq_some hfind).1 col player

theorem Gravity_make_move {state : BoardState} (hg : Gravity state) {player : Char}
    (hp : player ≠ '.') (col : Nat) : Gravity (make_move state col player) := by
  rw [make_move]
  cases hfind : find_drop_row state col state.length with
  | none => exact hg
  | some rstar =>
    obtain ⟨hrs, hcell, habove⟩ := find_drop_row_eq_some hfind
    have hbounds := bounds_of_cellAt_ne_placeholder (r := rstar) (c := col)
      (by rw [hcell]; decide)
    intro c hc r hr hcellne
    rw [colsOf_setCell] at hc
    rw [length_setCell] at hr
    by_cases hcol : c = col
    · subst hcol
      by_cases hr1 : r + 1 = rstar
      · rw [hr1, cellAt_setCell_self player hbounds.1 hbounds.2]
        exact hp
      · rw [cellAt_setCell_of_ne player (fun hcon => hr1 hcon.1)]
        by_cases hrr : r = rstar
        · exact habove (r + 1) (by omega) (by omega)
        · rw [cellAt_setCell_of_ne player (fun hcon => hrr hcon.1)] at hcellne
          exact hg c hc r hr hcellne
    · rw [cellAt_setCell_of_ne player (fun hcon => hcol hcon.2)]
      rw [cellAt_setCell_of_ne player (fun hcon => hcol hcon.2)] at hcellne
      exact hg c hc r hr hcellne

theorem get_possible_moves_ne_nil {state : BoardState} (hrect : Rect state)
    (hg : Gravity state) (hterm : is_terminal state = false) :
    get_possible_moves state ≠ [] := by
  have hfull : state.all (fun row => row.all (fun cell => cell ≠ '.')) = false := by
    rw [is_terminal] at hterm
    exact (Bool.or_eq_false_iff.mp hterm).2
  rw [List.all_eq_false] at hfull
  obtain ⟨row, hrow, hrowall⟩ := hfull
  rw [Bool.not_eq_true, List.all_eq_false] at hrowall
  obtain ⟨cell, hcell, hcellne⟩ := hrowall
  have hcdot : cell = '.' := by simpa using hcellne
  obtain ⟨r, hr, hre⟩ := List.mem_iff_getElem.mp hrow
  obtain ⟨ci, hci, hcie⟩ := List.mem_iff_getElem.mp hcell
  have hcirow : ci < colsOf state := by
    rw [← hrect row hrow]
    exact hci
  have hcempty : cellAt state r ci = '.' := by
    rw [cellAt_eq_row_getD hr, hre, List.getD_eq_getElem _ _ hci, hcie]
    exact hcdot
  have htop : cellAt state 0 ci = '.' := by
    by_contra htop
    exact gravity_down hg hcirow htop r (Nat.zero_le r) hr hcempty
  have hmem : ci ∈ get_possible_moves state := by
    rw [get_possible_moves]
    exact List.mem_filter.mpr ⟨List.mem_range.mpr hcirow, by simpa using htop⟩
  exact List.ne_nil_of_mem hmem

/-! ### XInt comparison lemmas -/

theorem XInt.ble_refl (a : XInt) : XInt.ble a a = true := by
  cases a <;> simp [XInt.ble]

theorem XInt.ble_trans {a b c : XInt} (h1 : XInt.ble a b = true)
    (h2 : XInt.ble b c = true) : XInt.ble a c = true := by
  cases a <;> cases b <;> cases c <;> simp_all [XInt.ble] <;> omega

theorem XInt.blt_ble {a b : XInt} (h : XInt.blt a b = true) : XInt.ble a b = true := by
  cases a <;> cases b <;> simp_all [XInt.blt, XInt.ble] <;> omega

theorem XInt.ble_of_not_blt {a b : XInt} (h : ¬XInt.blt a b = true) :
    XInt.ble b a = true := by
  cases a <;> cases b <;> simp_all [XInt.blt, XInt.ble] <;> omega

theorem XInt.blt_asymm {a b : XInt} (h1 : XInt.blt a b = true)
    (h2 : XInt.ble b a = true) : False := by
  cases a <;> cases b <;> simp_all [XInt.blt, XInt.ble] <;> omega

theorem XInt.ble_ne_blt {a b : XInt} (h1 : XInt.ble a b = true) (h2 : a ≠ b) :
    XInt.blt a b = true := by
  cases a <;> cases b <;> simp_all [XInt.blt, XInt.ble] <;> omega

/-! ### minimax values are finite on gravity boards -/

theorem foldl_xmax_fin (f : Nat → XInt) :
    ∀ (l : List Nat) (n : Int), (∀ m ∈ l, ∃ k, f m = .fin k) →
      ∃ k, l.foldl (fun acc m => XInt.max acc (f m)) (.fin n) = .fin k
  | [], n, _ => ⟨n, rfl⟩
  | m :: ms, n, hall => by
    obtain ⟨k, hk⟩ := hall m (by simp)
    simp only [List.foldl_cons]
    rw [hk]
    exact foldl_xmax_fin f ms (Max.max n k) (fun x hx => hall x (by simp [hx]))

theorem foldl_xmax_from_negInf (f : Nat → XInt) (l : List Nat) (hne : l ≠ [])
    (hall : ∀ m ∈ l, ∃ k, f m = .fin k) :
    ∃ k, l.foldl (fun acc m => XInt.max acc (f m)) .negInf = .fin k := by
  cases l with
  | nil => exact absurd rfl hne
  | cons m ms =>
    obtain ⟨k, hk⟩ := hall m (by simp)
    simp only [List.foldl_cons]
    rw [hk]
    exact foldl_xmax_fin f ms k (fun x hx => hall x (by simp [hx]))

theorem foldl_xmin_fin (f : Nat → XInt) :
    ∀ (l : List Nat) (n : Int), (∀ m ∈ l, ∃ k, f m = .fin k) →
      ∃ k, l.foldl (fun acc m => XInt.min acc (f m)) (.fin n) = .fin k
  | [], n, _ => ⟨n, rfl⟩
  | m :: ms, n, hall => by
    obtain ⟨k, hk⟩ := hall m (by simp)
    simp only [List.foldl_cons]
    rw [hk]
    exact foldl_xmin_fin f ms (Min.min n k) (fun x hx => hall x (by simp [hx]))

theorem foldl_xmin_from_posInf (f : Nat → XInt) (l : List Nat) (hne : l ≠ [])
    (hall : ∀ m ∈ l, ∃ k, f m = .fin k) :
    ∃ k, l.foldl (fun acc m => XInt.min acc (f m)) .posInf = .fin k := by
  cases l with
  | nil => exact absurd rfl hne
  | cons m ms =>
    obtain ⟨k, hk⟩ := hall m (by simp)
    simp only [List.foldl_cons]
    rw [hk]
    exact foldl_xmin_fin f ms k (fun x hx => hall x (by simp [hx]))

theorem minimax_fin : ∀ (d : Nat) (state : BoardState) (b : Bool),
    Rect state → Gravity state → ∃ n, minimax state d b = .fin n
  | 0, state, _, _, _ => ⟨evaluate state, rfl⟩
  | d + 1, state, b, hrect, hg => by
    by_cases hterm : is_terminal state = true
    · rw [minimax, if_pos hterm]
      exact ⟨evaluate state, rfl⟩
    · have hne := get_possible_moves_ne_nil hrect hg (by simpa using hterm)
      rw [minimax, if_neg hterm]
      cases b with
      | true =>
        rw [if_pos rfl]
        exact foldl_xmax_from_negInf _ _ hne (fun m _ =>
          minimax_fin d _ false (Rect_make_move hrect m 'O')
            (Gravity_make_move hg (by decide) m))
      | false =>
        rw [if_neg (by simp)]
        exact foldl_xmin_from_posInf _ _ hne (fun m _ =>
          minimax_fin d _ true (Rect_make_move hrect m 'X')
            (Gravity_make_move hg (by decide) m))

/-! ### The find_best_move loop keeps the first-encountered maximum -/

theorem fbmLoop_aux (scores : Nat → XInt) :
    ∀ (moves : List Nat) (c0 : Nat), (∀ m ∈ moves, c0 < m) →
      moves.Pairwise (· < ·) →
      ∃ c, fbmLoop scores moves (scores c0) (some c0) = some c
        ∧ c ∈ c0 :: moves
        ∧ (∀ m ∈ c0 :: moves, XInt.ble (scores m) (scores c) = true)
        ∧ (∀ m ∈ c0 :: moves, scores m = scores c → c ≤ m) := by
  intro moves
  induction moves with
  | nil =>
    intro c0 _ _
    refine ⟨c0, rfl, by simp, ?_, ?_⟩
    · intro m hm
      simp only [List.mem_cons, List.not_mem_nil, or_false] at hm
      subst hm
      exact XInt.ble_refl _
    · intro m hm heq
      simp only [List.mem_cons, List.not_mem_nil, or_false] at hm
      omega
  | cons m ms ih =>
    intro c0 hgt hpw
    rw [fbmLoop]
    have hgt' : ∀ x ∈ ms, m < x := (List.pairwise_cons.mp hpw).1
    have hpw' : ms.Pairwise (· < ·) := (List.pairwise_cons.mp hpw).2
    by_cases hlt : XInt.blt (scores c0) (scores m) = true
    · rw [if_pos hlt]
      obtain ⟨c, hc, hcmem, hble, hfirst⟩ := ih m hgt' hpw'
      refine ⟨c, hc, ?_, ?_, ?_⟩
      · simp only [List.mem_cons] at hcmem ⊢
        tauto
      · intro x hx
        simp only [List.mem_cons] at hx
        rcases hx with rfl | hx
        · exact XInt.ble_trans (XInt.blt_ble hlt) (hble m (by simp))
        · exact hble x (by simpa using hx)
      · intro x hx heq
        simp only [List.mem_cons] at hx
        rcases hx with rfl | hx
        · exact absurd heq (fun heq => XInt.blt_asymm hlt (heq ▸ hble m (by simp)))
        · exact hfirst x (by simpa using hx) heq
    · rw [if_neg hlt]
      obtain ⟨c, hc, hcmem, hble, hfirst⟩ :=
        ih c0 (fun x hx => hgt x (by simp [hx])) hpw'
      have hmc0 : XInt.ble (scores m) (scores c0) = true := XInt.ble_of_not_blt hlt
      refine ⟨c, hc, ?_, ?_, ?_⟩
      · simp only [List.mem_cons] at hcmem ⊢
        tauto
      · intro x hx
        simp only [List.mem_cons] at hx
        rcases hx with rfl | rfl | hx
        · exact hble x (by simp)
        · exact XInt.ble_trans hmc0 (hble c0 (by simp))
        · exact hble x (by simp [hx])
      · intro x hx heq
        simp only [List.mem_cons] at hx
        rcases hx with rfl | rfl | hx
        · exact hfirst x (by simp) heq
        · simp only [List.mem_cons] at hcmem
          rcases hcmem with rfl | hcmem
          · exact Nat.le_of_lt (hgt x (by simp))
          · exfalso
            have hc0c : c0 < c := hgt c (by simp [hcmem])
            have hne : scores c0 ≠ scores c := fun he =>
              absurd (hfirst c0 (by simp) he) (by omega)
            have hblt : XInt.blt (scores c0) (scores c) = true :=
              XInt.ble_ne_blt (hble c0 (by simp)) hne
            exact XInt.blt_asymm hblt (heq ▸ hmc0)
        · exact hfirst x (by simp [hx]) heq

theorem fbm_main (scores : Nat → XInt) (moves : List Nat) (hne : moves ≠ [])
    (hfins : ∀ m ∈ moves, ∃ n, scores m = .fin n)
    (hsorted : moves.Pairwise (· < ·)) :
    ∃ c, fbmLoop scores moves .negInf none = some c
      ∧ c ∈ moves
      ∧ (∀ m ∈ moves, XInt.ble (scores m) (scores c) = true)
      ∧ (∀ m ∈ moves, scores m = scores c → c ≤ m) := by
  cases moves with
  | nil => exact absurd rfl hne
  | cons m ms =>
    obtain ⟨n, hn⟩ := hfins m (by simp)
    rw [fbmLoop, if_pos (by rw [hn]; rfl)]
    obtain ⟨c, hc, hcmem, hble, hfirst⟩ := fbmLoop_aux scores ms m
      (List.pairwise_cons.mp hsorted).1 (List.pairwise_cons.mp hsorted).2
    exact ⟨c, hc, hcmem, hble, hfirst⟩

/-- C5 counterexample: on a board with legal columns that violates the
gravity invariant (column 2 has its top occupied above an empty cell), every
first-level minimax value at depth 2 is -inf, the strictly-greater update
never fires, and find_best_move returns None rather than a legal column. -/
theorem find_best_move_none_on_legal :
    get_possible_moves [['.', '.', 'X', 'O'], ['X', 'O', '.', 'X'],
        ['O', 'X', 'O', 'O'], ['X', 'O', 'X', 'X']] ≠ []
    ∧ find_best_move 2 [['.', '.', 'X', 'O'], ['X', 'O', '.', 'X'],
        ['O', 'X', 'O', 'O'], ['X', 'O', 'X', 'X']] = none := by
  constructor
  · decide
  · decide

/-- C5 (amended with the gravity invariant that every board reachable in
play satisfies): find_best_move, a pure function of the state and the
configured depth (hence deterministic), returns a legal column, and among
the columns achieving the maximal minimax value it returns the
first-encountered, i.e. smallest-index, one — the strictly-greater
comparison keeps the earliest maximum. -/
theorem find_best_move_spec (depth : Nat) (state : BoardState)
    (hrect : Rect state) (hg : Gravity state)
    (hmoves : get_possible_moves state ≠ []) :
    ∃ c, find_best_move depth state = some c
      ∧ c ∈ get_possible_moves state
      ∧ (∀ m ∈ get_possible_moves state,
          XInt.ble (minimax (make_move state m 'O') depth false)
            (minimax (make_move state c 'O') depth false) = true)
      ∧ (∀ m ∈ get_possible_moves state,
          minimax (make_move state m 'O') depth false =
            minimax (make_move state c 'O') depth false → c ≤ m) := by
  have hsorted : (get_possible_moves state).Pairwise (· < ·) := by
    rw [get_possible_moves]
    exact List.Pairwise.filter _ (List.pairwise_lt_range _)
  have hfins : ∀ m ∈ get_possible_moves state,
      ∃ n, minimax (make_move state m 'O') depth false = .fin n := fun m _ =>
    minimax_fin depth _ false (Rect_make_move hrect m 'O')
      (Gravity_make_move hg (by decide) m)
  rw [find_best_move]
  exact fbm_main _ _ hmoves hfins hsorted

/-- C5 witness: the empty 4x4 board at depth 2. -/
theorem find_best_move_spec_witness :
    ∃ c, find_best_move 2 [['.', '.', '.', '.'], ['.', '.', '.', '.'],
          ['.', '.', '.', '.'], ['.', '.', '.', '.']] = some c
      ∧ c ∈ get_possible_moves [['.', '.', '.', '.'], ['.', '.', '.', '.'],
          ['.', '.', '.', '.'], ['.', '.', '.', '.']]
      ∧ (∀ m ∈ get_possible_moves [['.', '.', '.', '.'], ['.', '.', '.', '.'],
            ['.', '.', '.', '.'], ['.', '.', '.', '.']],
          XInt.ble
            (minimax (make_move [['.', '.', '.', '.'], ['.', '.', '.', '.'],
              ['.', '.', '.', '.'], ['.', '.', '.', '.']] m 'O') 2 false)
            (minimax (make_move [['.', '.', '.', '.'], ['.', '.', '.', '.'],
              ['.', '.', '.', '.'], ['.', '.', '.', '.']] c 'O') 2 false) = true)
      ∧ (∀ m ∈ get_possible_moves [['.', '.', '.', '.'], ['.', '.', '.', '.'],
            ['.', '.', '.', '.'], ['.', '.', '.', '.']],
          minimax (make_move [['.', '.', '.', '.'], ['.', '.', '.', '.'],
              ['.', '.', '.', '.'], ['.', '.', '.', '.']] m 'O') 2 false =
            minimax (make_move [['.', '.', '.', '.'], ['.', '.', '.', '.'],
              ['.', '.', '.', '.'], ['.', '.', '.', '.']] c 'O') 2 false → c ≤ m) :=
  find_best_move_spec 2 _ (by unfold Rect colsOf; decide)
    (by unfold Gravity colsOf; decide) (by decide)
